import Mathlib

/-!
Shallow embedding of the service lifecycle manager of `tools/services`
(`manager.go`, `config.go`, `errors.go`, `helpers.go`, `interfaces.go`).

Modelling conventions:
* Containers are natural-number handles; the external world (`World`) fixes
  the outcome of `Container.Terminate` per handle, and a `ServiceRunner`
  fixes the outcome of `Run` as a function of the options and of the fresh
  handle it would be given.  `MState.nextId` is the supply of fresh handles.
* `MState.log` records every `Terminate` invocation, in order, so that
  "terminated exactly once / best-effort" facts are observable.
* Go maps (`running`, `ServicesMap`, the registry, the priority groups) are
  association lists.  Go map iteration order is unspecified, so the order of
  these lists is exactly the scheduling nondeterminism: a theorem quantified
  over all lists covers all schedules, and a concrete list is one realizable
  schedule.  Within a priority group `errgroup` runs the starts concurrently;
  the embedding runs them sequentially in list order, which realizes every
  schedule in which each `startService` body runs without interleaving
  (runners here ignore context cancellation, which a runner may do).
* `errgroup.(*Group).Wait` returns the first non-nil error and still runs
  every submitted function; the embedding does the same.  `SetLimit(0)`
  (from `MaxParallel = 0`) makes `(*Group).Go` block forever on its
  semaphore channel, so a group with at least one member never finishes:
  this non-termination is modelled by `Option`, `none` meaning the call
  blocks forever.
* The `Logger` field and the log lines are omitted: they do not affect any
  observable state.  `context.Context` values are omitted for the same
  reason (no modelled component inspects them).
-/

/-- Error taxonomy of `errors.go`.  `external` stands for an arbitrary error
value produced by a collaborator (runner, health check, container). -/
inductive GoError where
  | serviceNotFound (serviceName : String)
  | serviceNotRunning (serviceName : String)
  | serviceStartFailed (serviceName : String) (cause : GoError)
  | serviceStopFailed (serviceName : String) (cause : GoError)
  | healthCheckFailed (serviceName : String) (cause : GoError)
  | dependencyNotMet (serviceName : String) (dependencyName : String)
  | serviceAlreadyRegistered (serviceName : String)
  | external (msg : String)
  deriving DecidableEq

/-- Opaque `[]testcontainers.ContainerCustomizer` payload: never interpreted
by the manager, only handed to the runner. -/
abbrev Opts := List String

/-- `HealthChecker.Check` outcome as a function of the container handle
(`none` = healthy, `some e` = check failed with `e`). -/
abbrev HealthChecker := Nat → Option GoError

/-- `Config` of `config.go`. -/
structure Config where
  healthCheck : Option HealthChecker := none
  opts : Opts := []
  dependencies : List String := []
  priority : Int := 0
  enabled : Bool := false

/-- `ManagerConfig` of `config.go` (Logger omitted, see module comment).
Field defaults are the Go zero values. -/
structure ManagerConfig where
  maxParallel : Int := 0
  stopOnError : Bool := false
  deriving DecidableEq

/-- `DefaultManagerConfig` of `config.go`. -/
def DefaultManagerConfig : ManagerConfig :=
  { maxParallel := 10, stopOnError := true }

/-- `ServiceRunner` of `interfaces.go`: `run opts id` is the outcome of
`Run(ctx, opts...)` when `id` is the fresh container handle the world would
hand out (`none` = success producing container `id`). -/
structure ServiceRunner where
  run : Opts → Nat → Option GoError

/-- `Registry` of `helpers.go`: name → runner association list. -/
abbrev Registry := List (String × ServiceRunner)

/-- `Registry.Get`. -/
def Registry.Get (r : Registry) (name : String) : Option ServiceRunner :=
  (r.find? (fun p => p.1 == name)).map (·.2)

/-- `Registry.Register`: fails if the name exists, otherwise inserts. -/
def Registry.Register (r : Registry) (name : String) (runner : ServiceRunner) :
    Except GoError Registry :=
  match r.Get name with
  | some _ => .error (.serviceAlreadyRegistered name)
  | none => .ok (r ++ [(name, runner)])

/-- `ServiceEnv` of `manager.go`. -/
structure ServiceEnv where
  name : String
  container : Nat
  config : Config

/-- Association-list lookup (Go map read). -/
def lookupAL {α : Type} (l : List (String × α)) (k : String) : Option α :=
  (l.find? (fun p => p.1 == k)).map (·.2)

/-- Association-list insert (Go map write): replaces an existing binding,
otherwise appends. -/
def insertAL {α : Type} (l : List (String × α)) (k : String) (v : α) :
    List (String × α) :=
  match l with
  | [] => [(k, v)]
  | p :: rest => if p.1 == k then (k, v) :: rest else p :: insertAL rest k v

/-- Association-list delete (Go `delete`). -/
def eraseAL {α : Type} (l : List (String × α)) (k : String) :
    List (String × α) :=
  l.filter (fun p => p.1 != k)

/-- The manager's mutable state together with the world effects: the
`running` map, the fresh-handle supply and the `Terminate` call log. -/
structure MState where
  running : List (String × ServiceEnv)
  nextId : Nat
  log : List Nat

/-- The initial state: empty running map, no container exists yet. -/
def st0 : MState := { running := [], nextId := 0, log := [] }

/-- External world behavior: outcome of `Terminate` per container handle. -/
structure World where
  termB : Nat → Option GoError

/-- `ServicesMap` of `config.go` as an association list. -/
abbrev ServicesMap := List (String × Config)

/-- `Manager` of `manager.go` (the `running` map lives in `MState`). -/
structure Manager where
  config : ServicesMap
  registry : Registry
  mconfig : ManagerConfig

/-- `NewManagerWithRegistry` (the Logger defaulting is omitted; `NewManager`
is the same with the process-wide default registry supplied). -/
def NewManagerWithRegistry (services : ServicesMap) (config : ManagerConfig)
    (registry : Registry) : Manager :=
  { config := services, registry := registry, mconfig := config }

/-- `Manager.IsRunning`. -/
def Manager.IsRunning (st : MState) (name : String) : Bool :=
  (lookupAL st.running name).isSome

/-- Lexicographic comparison of character lists by code point (the order of
Go's `sort.Strings`). -/
def strLeAux : List Char → List Char → Bool
  | [], _ => true
  | _ :: _, [] => false
  | a :: as, b :: bs =>
    if a.toNat < b.toNat then true
    else if b.toNat < a.toNat then false
    else strLeAux as bs

/-- Lexicographic string comparison (the order of Go's `sort.Strings`). -/
def strLe (a b : String) : Bool := strLeAux a.data b.data

/-- `Manager.ListRunning`: running names, sorted ascending
(`sort.Strings`). -/
def Manager.ListRunning (st : MState) : List String :=
  List.insertionSort (fun a b => strLe a b = true) (st.running.map (·.1))

/-- `Manager.Get`. -/
def Manager.GetEnv (st : MState) (name : String) : Except GoError ServiceEnv :=
  match lookupAL st.running name with
  | none => .error (.serviceNotRunning name)
  | some env => .ok env

/-- First dependency of the list that is not running (the loop of
`manager.go:278-282` fails on the first unmet dependency). -/
def findUnmetDep (st : MState) (deps : List String) : Option String :=
  deps.find? (fun d => !(Manager.IsRunning st d))

/-- `Manager.startService` (`manager.go:274-315`): dependency check, registry
lookup, runner invocation, optional health check (terminating the fresh
container best-effort on health failure, its error discarded), then the
atomic insert into the running map.  Returns the Go error (`none` = nil). -/
def Manager.startService (reg : Registry) (w : World) (name : String)
    (cfg : Config) (st : MState) : Option GoError × MState :=
  match findUnmetDep st cfg.dependencies with
  | some dep => (some (.dependencyNotMet name dep), st)
  | none =>
    match reg.Get name with
    | none => (some (.serviceNotFound name), st)
    | some runner =>
      match runner.run cfg.opts st.nextId with
      | some e => (some (.serviceStartFailed name e), st)
      | none =>
        let container := st.nextId
        let st1 : MState := { st with nextId := st.nextId + 1 }
        match cfg.healthCheck with
        | some hc =>
          match hc container with
          | some he =>
            -- best-effort `container.Terminate(ctx)`: the call is logged,
            -- its outcome `w.termB container` is discarded
            (some (.healthCheckFailed name he),
              { st1 with log := st1.log ++ [container] })
          | none =>
            let env : ServiceEnv :=
              { name := name, container := container, config := cfg }
            (none, { st1 with running := insertAL st1.running name env })
        | none =>
          let env : ServiceEnv :=
            { name := name, container := container, config := cfg }
          (none, { st1 with running := insertAL st1.running name env })

/-- `Manager.stopService` (`manager.go:317-330`): terminate, then on success
delete from the running map. -/
def Manager.stopService (w : World) (env : ServiceEnv) (st : MState) :
    Option GoError × MState :=
  let st1 : MState := { st with log := st.log ++ [env.container] }
  match w.termB env.container with
  | some e => (some (.serviceStopFailed env.name e), st1)
  | none => (none, { st1 with running := eraseAL st1.running env.name })

/-- The `errgroup` body of `startGroup`: every unit runs, the first non-nil
error is the group result (`eg.Wait` contract). -/
def Manager.runGroup (reg : Registry) (w : World) :
    List (String × Config) → MState → Option GoError × MState
  | [], st => (none, st)
  | (n, c) :: rest, st =>
    let r1 := Manager.startService reg w n c st
    let r2 := Manager.runGroup reg w rest r1.2
    (match r1.1 with
     | some e => some e
     | none => r2.1, r2.2)

/-- `Manager.startGroup` (`manager.go:258-272`).  `eg.SetLimit(0)` (from
`MaxParallel = 0`) makes `eg.Go` block forever on its capacity-0 semaphore
channel, so with at least one member the call never returns (`none`). -/
def Manager.startGroup (m : Manager) (w : World)
    (cfgs : List (String × Config)) (st : MState) :
    Option (Option GoError × MState) :=
  if m.mconfig.maxParallel = 0 ∧ cfgs.isEmpty = false then none
  else some (Manager.runGroup m.registry w cfgs st)

/-- The enabled entries of the configuration (`groupByPriority` skips
`!cfg.Enabled`). -/
def enabledConfigs (cfgs : ServicesMap) : ServicesMap :=
  cfgs.filter (fun nc => nc.2.enabled)

/-- `Manager.groupByPriority`, read at one priority key: the enabled entries
of that priority, in configuration (= schedule) order. -/
def Manager.groupByPriority (m : Manager) (p : Int) : List (String × Config) :=
  (enabledConfigs m.config).filter (fun nc => nc.2.priority == p)

/-- `Manager.getSortedPriorities`: the distinct priorities of the enabled
services, ascending. -/
def Manager.getSortedPriorities (m : Manager) : List Int :=
  List.insertionSort (fun a b : Int => a ≤ b)
    ((enabledConfigs m.config).map (·.2.priority)).dedup

/-- The sorted running names of `ListRunning` when `Start` succeeds on the
enabled set (used to state claim C3). -/
def sortedEnabledNames (cfgs : ServicesMap) : List String :=
  List.insertionSort (fun a b => strLe a b = true) ((enabledConfigs cfgs).map (·.1))

/-- The `errgroup` body of `Stop`: every termination runs, the first non-nil
error is the result. -/
def Manager.runStops (w : World) :
    List ServiceEnv → MState → Option GoError × MState
  | [], st => (none, st)
  | env :: rest, st =>
    let r1 := Manager.stopService w env st
    let r2 := Manager.runStops w rest r1.2
    (match r1.1 with
     | some e => some e
     | none => r2.1, r2.2)

/-- The `sort.Slice` of `Stop`: descending priority.  `sort.Slice` is not
stable; stable insertion sort realizes one admissible outcome, and the
parallel termination order is a schedule choice anyway (see module
comment). -/
def sortEnvsDesc (envs : List ServiceEnv) : List ServiceEnv :=
  List.insertionSort (fun a b => b.config.priority ≤ a.config.priority) envs

/-- `Manager.Stop` (`manager.go:79-115`): snapshot, no-op when empty, sort by
descending priority, terminate all, first error wins, successful
terminations stay removed. -/
def Manager.Stop (w : World) (st : MState) : Option GoError × MState :=
  let envs := st.running.map (·.2)
  if envs.isEmpty then (none, st)
  else Manager.runStops w (sortEnvsDesc envs) st

/-- The priority loop of `Manager.Start`: groups run sequentially; on a group
failure with `StopOnError` the manager stops everything best-effort
(discarding the cleanup error) and returns the group error. -/
def Manager.startPriorities (m : Manager) (w : World) :
    List Int → MState → Option (Option GoError × MState)
  | [], st => some (none, st)
  | p :: ps, st =>
    match Manager.startGroup m w (m.groupByPriority p) st with
    | none => none
    | some (some e, st1) =>
      if m.mconfig.stopOnError then
        some (some e, (Manager.Stop w st1).2)
      else
        some (some e, st1)
    | some (none, st1) => Manager.startPriorities m w ps st1

/-- `Manager.Start` (`manager.go:57-76`). -/
def Manager.Start (m : Manager) (w : World) (st : MState) :
    Option (Option GoError × MState) :=
  Manager.startPriorities m w m.getSortedPriorities st

/-- `Manager.Restart` (`manager.go:163-184`): `Get`, stop that one service,
start it again from its snapshot config via `startService`. -/
def Manager.Restart (m : Manager) (w : World) (name : String) (st : MState) :
    Option GoError × MState :=
  match lookupAL st.running name with
  | none => (some (.serviceNotRunning name), st)
  | some env =>
    let r1 := Manager.stopService w env st
    match r1.1 with
    | some e => (some e, r1.2)
    | none => Manager.startService m.registry w name env.config r1.2

/-- `Manager.RestartAll` (`manager.go:188-230`): snapshot, `Stop`, rebuild the
configuration from the stopped records, run `Start` on a transient manager
over the same registry, adopt its running map only on success. -/
def Manager.RestartAll (m : Manager) (w : World) (st : MState) :
    Option (Option GoError × MState) :=
  let envs := st.running.map (·.2)
  if envs.isEmpty then some (none, st)
  else
    let r1 := Manager.Stop w st
    match r1.1 with
    | some e => some (some e, r1.2)
    | none =>
      let configs : ServicesMap := envs.map (fun env => (env.name, env.config))
      let tempM : Manager :=
        { config := configs, registry := m.registry, mconfig := m.mconfig }
      match Manager.Start tempM w r1.2 with
      | none => none
      | some (some e, st2) =>
        -- on failure `m.running` is not overwritten with the transient
        -- manager's map; the world effects (handles, log) persist
        some (some e, { st2 with running := r1.2.running })
      | some (none, st2) => some (none, st2)

/-! ### Collaborator behaviors and concrete scenarios used by the theorems -/

/-- A runner whose `Run` always succeeds. -/
def runnerOk : ServiceRunner := { run := fun _ _ => none }

/-- A runner that succeeds while the fresh handle is 0 and fails afterwards
(so its second invocation fails). -/
def runnerFlaky : ServiceRunner :=
  { run := fun _ i => if i == 0 then none else some (.external "crash") }

/-- A health check that always fails. -/
def hcSick : HealthChecker := fun _ => some (.external "sick")

/-- A world in which every termination succeeds. -/
def wOk : World := { termB := fun _ => none }

/-- A world in which every termination fails. -/
def wFail : World := { termB := fun _ => some (.external "boom") }

def regAB : Registry := [("a", runnerOk), ("b", runnerOk)]

def regH : Registry := [("h", runnerOk)]

def regFlaky : Registry := [("a", runnerFlaky), ("b", runnerOk)]

def regS : Registry := [("s", runnerOk)]

/-- An enabled service with a failing health check. -/
def cfgHC : Config := { enabled := true, healthCheck := some hcSick }

/-- Same priority group, `b` depends on its sibling `a`; the schedule (map
iteration order) happens to run `a` to completion first. -/
def mSibling : Manager :=
  { config := [("a", { enabled := true }),
               ("b", { enabled := true, dependencies := ["a"] })],
    registry := regAB, mconfig := DefaultManagerConfig }

/-- `b` depends on a name that no enabled service bears. -/
def mGhost : Manager :=
  { config := [("a", { enabled := true }),
               ("b", { enabled := true, dependencies := ["ghost"] })],
    registry := regAB, mconfig := DefaultManagerConfig }

/-- Two independent enabled services of the same priority. -/
def mAB : Manager :=
  { config := [("a", { enabled := true }), ("b", { enabled := true })],
    registry := regAB, mconfig := DefaultManagerConfig }

/-- `a` (flaky runner) in group 0; `b`, depending on `a`, in group 1. -/
def mFlaky : Manager :=
  { config := [("a", { enabled := true }),
               ("b", { enabled := true, priority := 1, dependencies := ["a"] })],
    registry := regFlaky, mconfig := DefaultManagerConfig }

/-- Unregistered `t` in group 0; `s` with an unsatisfiable dependency in
group 1. -/
def mUnreg : Manager :=
  { config := [("t", { enabled := true }),
               ("s", { enabled := true, priority := 1, dependencies := ["ghost"] })],
    registry := regS, mconfig := DefaultManagerConfig }

/-- A manager with an empty registry (restart-failure scenarios). -/
def mEmptyReg : Manager :=
  { config := [], registry := [], mconfig := DefaultManagerConfig }

def envA : ServiceEnv := { name := "a", container := 0, config := {} }

/-- One running service `a` holding container 0. -/
def stA : MState := { running := [("a", envA)], nextId := 1, log := [] }

/-- Enabled `a`, `b` plus disabled `z`. -/
def mABz : Manager :=
  { config := [("a", { enabled := true }), ("b", { enabled := true }), ("z", {})],
    registry := regAB, mconfig := DefaultManagerConfig }

/-- A service unit whose collaborators cannot fail: its runner is registered
and always succeeds, and its health check (if any) always passes. -/
def benignUnit (reg : Registry) (n : String) (c : Config) : Prop :=
  (∃ runner, Registry.Get reg n = some runner ∧ ∀ o i, runner.run o i = none) ∧
  (∀ hc, c.healthCheck = some hc → ∀ i, hc i = none)

/-- Well-formedness of the running map: every record is keyed by its own
name (true of every state the manager constructs). -/
def WFState (st : MState) : Prop :=
  ∀ p ∈ st.running, p.2.name = p.1

/-! ### Lemmas about the association-list primitives -/

theorem lookupAL_eraseAL_self {α : Type} (l : List (String × α)) (k : String) :
    lookupAL (eraseAL l k) k = none := by
  simp only [lookupAL, eraseAL, Option.map_eq_none', List.find?_eq_none]
  intro p hp
  have h2 := List.of_mem_filter hp
  simp only [bne_iff_ne, ne_eq] at h2
  simpa using h2

theorem mem_keys_insertAL {α : Type} (l : List (String × α)) (k k2 : String)
    (v : α) :
    k2 ∈ (insertAL l k v).map (·.1) ↔ k2 = k ∨ k2 ∈ l.map (·.1) := by
  induction l with
  | nil => simp [insertAL]
  | cons p rest ih =>
    by_cases h : p.1 = k
    · simp [insertAL, h]
    · simp only [insertAL, beq_iff_eq, h, if_false, List.map_cons, List.mem_cons, ih]
      tauto

theorem isRunning_iff_mem (st : MState) (n : String) :
    Manager.IsRunning st n = true ↔ n ∈ st.running.map (·.1) := by
  simp only [Manager.IsRunning, lookupAL, Option.isSome_map', List.find?_isSome,
    List.mem_map, beq_iff_eq]

theorem isRunning_congr (st1 st2 : MState) (n : String)
    (h : st1.running = st2.running) :
    Manager.IsRunning st1 n = Manager.IsRunning st2 n := by
  simp [Manager.IsRunning, h]

/-! ### Case analysis of `startService` -/

theorem startService_spec (reg : Registry) (w : World) (n : String)
    (c : Config) (st : MState) :
    (∃ d, findUnmetDep st c.dependencies = some d ∧
       Manager.startService reg w n c st = (some (.dependencyNotMet n d), st))
    ∨ (findUnmetDep st c.dependencies = none ∧ Registry.Get reg n = none ∧
       Manager.startService reg w n c st = (some (.serviceNotFound n), st))
    ∨ (∃ runner e, findUnmetDep st c.dependencies = none ∧
       Registry.Get reg n = some runner ∧
       runner.run c.opts st.nextId = some e ∧
       Manager.startService reg w n c st = (some (.serviceStartFailed n e), st))
    ∨ (∃ runner hc he, findUnmetDep st c.dependencies = none ∧
       Registry.Get reg n = some runner ∧
       runner.run c.opts st.nextId = none ∧ c.healthCheck = some hc ∧
       hc st.nextId = some he ∧
       Manager.startService reg w n c st
         = (some (.healthCheckFailed n he),
            { running := st.running, nextId := st.nextId + 1,
              log := st.log ++ [st.nextId] }))
    ∨ ((Manager.startService reg w n c st).1 = none ∧
       (Manager.startService reg w n c st).2
         = { running := insertAL st.running n ⟨n, st.nextId, c⟩,
             nextId := st.nextId + 1, log := st.log }) := by
  rcases hd : findUnmetDep st c.dependencies with _ | d
  · rcases hg : Registry.Get reg n with _ | runner
    · exact Or.inr (Or.inl ⟨rfl, rfl, by simp [Manager.startService, hd, hg]⟩)
    · rcases hr : runner.run c.opts st.nextId with _ | e
      · rcases hhc : c.healthCheck with _ | hc
        · refine Or.inr (Or.inr (Or.inr (Or.inr ⟨?_, ?_⟩))) <;>
            simp [Manager.startService, hd, hg, hr, hhc]
        · rcases hhe : hc st.nextId with _ | he
          · refine Or.inr (Or.inr (Or.inr (Or.inr ⟨?_, ?_⟩))) <;>
              simp [Manager.startService, hd, hg, hr, hhc, hhe]
          · exact Or.inr (Or.inr (Or.inr (Or.inl ⟨runner, hc, he, rfl, rfl, hr,
              rfl, hhe, by simp [Manager.startService, hd, hg, hr, hhc, hhe]⟩)))
      · exact Or.inr (Or.inr (Or.inl ⟨runner, e, rfl, rfl, hr,
          by simp [Manager.startService, hd, hg, hr]⟩))
  · exact Or.inl ⟨d, rfl, by simp [Manager.startService, hd]⟩

theorem startService_fail_running (reg : Registry) (w : World) (n : String)
    (c : Config) (st : MState) (e : GoError)
    (h : (Manager.startService reg w n c st).1 = some e) :
    (Manager.startService reg w n c st).2.running = st.running := by
  rcases startService_spec reg w n c st with
    ⟨d, _, hs⟩ | ⟨_, _, hs⟩ | ⟨r, e2, _, _, _, hs⟩ |
    ⟨r, hc, he, _, _, _, _, _, hs⟩ | ⟨h1, _⟩
  · rw [hs]
  · rw [hs]
  · rw [hs]
  · rw [hs]
  · rw [h1] at h; cases h

theorem startService_isRunning_mono (reg : Registry) (w : World) (n : String)
    (c : Config) (st : MState) (d : String)
    (h : Manager.IsRunning st d = true) :
    Manager.IsRunning (Manager.startService reg w n c st).2 d = true := by
  rcases startService_spec reg w n c st with
    ⟨d0, _, hs⟩ | ⟨_, _, hs⟩ | ⟨r, e2, _, _, _, hs⟩ |
    ⟨r, hc, he, _, _, _, _, _, hs⟩ | ⟨_, h2⟩
  · rw [hs]; exact h
  · rw [hs]; exact h
  · rw [hs]; exact h
  · rw [hs]
    rw [isRunning_iff_mem] at h ⊢
    exact h
  · rw [isRunning_iff_mem] at h ⊢
    rw [h2]
    simp only [mem_keys_insertAL]
    exact Or.inr h

theorem runGroup_isRunning_mono (reg : Registry) (w : World)
    (cfgs : List (String × Config)) (st : MState) (d : String)
    (h : Manager.IsRunning st d = true) :
    Manager.IsRunning (Manager.runGroup reg w cfgs st).2 d = true := by
  induction cfgs generalizing st with
  | nil => exact h
  | cons nc rest ih =>
    exact ih _ (startService_isRunning_mono reg w nc.1 nc.2 st d h)

/-! ### Claim C1 -/

/-- C1 (counterexample): `a` and `b` share priority group 0 and `b` depends
on `a`; under the schedule that commits `a` first, `b`'s dependency check
sees its sibling and passes, so `Start` succeeds with both running — the
dependency check is not evaluated against the pre-group running set, and a
sibling that committed first does satisfy it. -/
theorem c1_counterexample :
    (Manager.Start mSibling wOk st0).map (fun r => (r.1, Manager.ListRunning r.2))
      = some (none, ["a", "b"]) := by decide

/-- C1 (amended): each service's dependency check reads the running set at
the moment its start executes: if at that moment some listed dependency is
missing, the unit fails with `DependencyNotMet` naming the service and the
first missing dependency and changes nothing; if all are present at that
moment it never fails with `DependencyNotMet`; and the running set only
grows during a group, so a dependency from an earlier, already-completed
group (or pre-existing) stays satisfied throughout — while a same-group
sibling that committed earlier in the schedule also satisfies the check. -/
theorem c1_theorem :
    (∀ (reg : Registry) (w : World) (n : String) (c : Config) (st : MState)
       (d : String), findUnmetDep st c.dependencies = some d →
       Manager.startService reg w n c st = (some (.dependencyNotMet n d), st)) ∧
    (∀ (reg : Registry) (w : World) (n : String) (c : Config) (st : MState),
       findUnmetDep st c.dependencies = none →
       ∀ n0 d, (Manager.startService reg w n c st).1 ≠ some (.dependencyNotMet n0 d)) ∧
    (∀ (reg : Registry) (w : World) (cfgs : List (String × Config))
       (st : MState) (d : String), Manager.IsRunning st d = true →
       Manager.IsRunning (Manager.runGroup reg w cfgs st).2 d = true) := by
  refine ⟨?_, ?_, ?_⟩
  · intro reg w n c st d hd
    simp [Manager.startService, hd]
  · intro reg w n c st hd n0 d
    rcases startService_spec reg w n c st with
      ⟨d0, hd0, _⟩ | ⟨_, _, hs⟩ | ⟨r, e2, _, _, _, hs⟩ |
      ⟨r, hc, he, _, _, _, _, _, hs⟩ | ⟨h1, _⟩
    · rw [hd] at hd0; cases hd0
    · rw [hs]; simp
    · rw [hs]; simp
    · rw [hs]; simp
    · rw [h1]; simp
  · exact runGroup_isRunning_mono

/-- C1 (witness for the amended theorem). -/
theorem c1_witness :
    Manager.startService regAB wOk "b"
        { enabled := true, dependencies := ["z"] } st0
      = (some (.dependencyNotMet "b" "z"), st0) :=
  c1_theorem.1 regAB wOk "b" { enabled := true, dependencies := ["z"] } st0 "z"
    (by decide)

/-! ### Claim C2 (counterexample; the amended theorem comes later) -/

/-- C2 (counterexample): the configuration has an enabled service `s` whose
dependency `ghost` is absent from the enabled set, and the default
`StopOnError`; but `Start` fails with `ServiceNotFound` (for the earlier,
unregistered service `t`), not with `DependencyNotMet`. -/
theorem c2_counterexample :
    (Manager.Start mUnreg wOk st0).map (fun r => (r.1, Manager.ListRunning r.2))
      = some (some (.serviceNotFound "t"), []) := by decide

/-! ### Claim C3 (counterexample; the amended theorem comes later) -/

/-- C3 (counterexample): `a` is enabled with no dependencies (satisfiable)
and `b` is enabled depending on the non-enabled `ghost`; after `Start`
(default `StopOnError`), `ListRunning` is empty rather than `["a"]`, the
set of enabled services whose dependencies were satisfiable — `a` was even
started and then stopped again (its container 0 was terminated). -/
theorem c3_counterexample :
    (Manager.Start mGhost wOk st0).map
        (fun r => (r.1, Manager.ListRunning r.2, r.2.log))
      = some (some (.dependencyNotMet "b" "ghost"), [], [0]) := by decide

/-! ### Claim C4 (counterexample; the amended theorem comes later) -/

/-- C4 (counterexample): after starting `a` and `b`, a `Stop` in which both
terminations fail returns a single `ServiceStopFailed` naming only `a` —
not a combined failure containing all termination errors — while both
terminations were attempted (log `[0, 1]`) and both entries remain in the
running set. -/
theorem c4_counterexample :
    ((Manager.Start mAB wOk st0).map (fun r =>
      (r.1, (Manager.Stop wFail r.2).1,
       Manager.ListRunning (Manager.Stop wFail r.2).2,
       (Manager.Stop wFail r.2).2.log)))
    = some (none, some (.serviceStopFailed "a" (.external "boom")),
        ["a", "b"], [0, 1]) := by decide

/-! ### Claim C5 -/

/-- C5: when a health check is configured, the runner's `Run` succeeds and
the check fails, `startService` terminates the just-created container
best-effort (the `Terminate` call is logged on the fresh container and its
outcome — an arbitrary `w` — is discarded, never propagated), returns
`HealthCheckFailed` carrying the health-check cause, and the running set is
unchanged. -/
theorem c5_theorem (reg : Registry) (w : World) (name : String) (cfg : Config)
    (st : MState) (runner : ServiceRunner) (hc : HealthChecker) (he : GoError)
    (hdep : findUnmetDep st cfg.dependencies = none)
    (hreg : Registry.Get reg name = some runner)
    (hrun : runner.run cfg.opts st.nextId = none)
    (hhc : cfg.healthCheck = some hc)
    (hfail : hc st.nextId = some he) :
    Manager.startService reg w name cfg st
      = (some (.healthCheckFailed name he),
         { running := st.running, nextId := st.nextId + 1,
           log := st.log ++ [st.nextId] }) := by
  simp [Manager.startService, hdep, hreg, hrun, hhc, hfail]

/-- C5 (witness). -/
theorem c5_witness :
    Manager.startService regH wOk "h" cfgHC st0
      = (some (.healthCheckFailed "h" (.external "sick")),
         { running := [], nextId := 1, log := [0] }) :=
  c5_theorem regH wOk "h" cfgHC st0 runnerOk hcSick (.external "sick")
    rfl rfl rfl rfl rfl

/-! ### Claim C6 -/

/-- C6 (counterexample): start `a` (group 0) and `b` (group 1, depends on
`a`); `Restart "a"` stops `a` and then fails to re-start it (flaky runner),
leaving `a` not running; then `Restart "b"` stops `b` and its re-start
phase fails with `DependencyNotMet b a` — the re-start phase does perform a
dependency check, contrary to the claim that it performs none. -/
theorem c6_counterexample :
    ((Manager.Start mFlaky wOk st0).map (fun r =>
      (r.1, (Manager.Restart mFlaky wOk "a" r.2).1,
       (Manager.Restart mFlaky wOk "b" (Manager.Restart mFlaky wOk "a" r.2).2).1,
       Manager.ListRunning
         (Manager.Restart mFlaky wOk "b" (Manager.Restart mFlaky wOk "a" r.2).2).2)))
    = some (none, some (.serviceStartFailed "a" (.external "crash")),
        some (.dependencyNotMet "b" "a"), []) := by decide

/-- C6 (amended): `Restart` fails with `ServiceNotRunning` when the named
service has no running record and changes nothing; otherwise it stops
exactly that service and, when the termination succeeds, re-starts it via
`startService` from the snapshot configuration of its running record —
bypassing priority grouping, but therefore re-performing the dependency
check against the current running set. -/
theorem c6_theorem :
    (∀ (m : Manager) (w : World) (name : String) (st : MState),
       lookupAL st.running name = none →
       Manager.Restart m w name st = (some (.serviceNotRunning name), st)) ∧
    (∀ (m : Manager) (w : World) (name : String) (st : MState)
       (env : ServiceEnv), lookupAL st.running name = some env →
       w.termB env.container = none →
       Manager.Restart m w name st
         = Manager.startService m.registry w name env.config
             { running := eraseAL st.running env.name, nextId := st.nextId,
               log := st.log ++ [env.container] }) := by
  constructor
  · intro m w name st h
    simp [Manager.Restart, h]
  · intro m w name st env h hterm
    simp [Manager.Restart, h, Manager.stopService, hterm]

/-- C6 (witness for the amended theorem). -/
theorem c6_witness :
    Manager.Restart mEmptyReg wOk "a" stA
      = Manager.startService mEmptyReg.registry wOk "a" envA.config
          { running := eraseAL stA.running "a", nextId := stA.nextId,
            log := stA.log ++ [envA.container] } :=
  c6_theorem.2 mEmptyReg wOk "a" stA envA rfl rfl

/-! ### Claim C7 -/

/-- C7: after a successful `Start` of `{a, b}` (registered always-succeeding
runners, no health checks, terminations succeeding), `RestartAll` succeeds
and `ListRunning` is `["a", "b"]` again; the original containers 0 and 1
were each terminated exactly once (the log is exactly `[0, 1]`), the
services now hold the freshly created containers 2 and 3 (not the
originals), and the restart ran from the configuration recovered from the
stopped records. -/
theorem c7_theorem :
    ((Manager.Start mAB wOk st0).map (fun r =>
      (Manager.RestartAll mAB wOk r.2).map (fun r2 =>
        (r.1, r2.1, Manager.ListRunning r2.2))))
      = some (some (none, none, ["a", "b"]))
    ∧ ((Manager.Start mAB wOk st0).map (fun r =>
        (Manager.RestartAll mAB wOk r.2).map (fun r2 =>
          ((lookupAL r2.2.running "a").map (fun env => env.container),
           (lookupAL r2.2.running "b").map (fun env => env.container)))))
      = some (some (some 2, some 3))
    ∧ ((Manager.Start mAB wOk st0).map (fun r =>
        ((lookupAL r.2.running "a").map (fun env => env.container),
         (lookupAL r.2.running "b").map (fun env => env.container))))
      = some (some 0, some 1)
    ∧ ((Manager.Start mAB wOk st0).map (fun r =>
        (Manager.RestartAll mAB wOk r.2).map (fun r2 => r2.2.log)))
      = some (some [0, 1]) := by
  refine ⟨by decide, by decide, by decide, by decide⟩

/-! ### Claim C8 -/

/-- C8: registering the same name twice yields `ServiceAlreadyRegistered` on
the second `Register` call, and the first registration remains intact:
`Get` still returns the originally registered runner. -/
theorem c8_theorem (r : Registry) (name : String)
    (runner runner2 : ServiceRunner) (r1 : Registry)
    (h : Registry.Register r name runner = .ok r1) :
    Registry.Register r1 name runner2 = .error (.serviceAlreadyRegistered name)
    ∧ Registry.Get r1 name = some runner := by
  unfold Registry.Register at h
  cases hg : Registry.Get r name with
  | some runner0 => rw [hg] at h; cases h
  | none =>
    rw [hg] at h
    cases h
    have hf : r.find? (fun p => p.1 == name) = none := by
      unfold Registry.Get at hg
      exact Option.map_eq_none'.mp hg
    have hget : Registry.Get (r ++ [(name, runner)]) name = some runner := by
      unfold Registry.Get
      rw [List.find?_append, hf]
      simp
    refine ⟨?_, hget⟩
    unfold Registry.Register
    rw [hget]

/-- C8 (witness). -/
theorem c8_witness :
    Registry.Register [("a", runnerOk)] "a" runnerFlaky
        = .error (.serviceAlreadyRegistered "a")
    ∧ Registry.Get [("a", runnerOk)] "a" = some runnerOk :=
  c8_theorem [] "a" runnerOk runnerFlaky [("a", runnerOk)] rfl

/-! ### Claim C9 -/

/-- C9 (code-bug evidence): `NewManager` defaults only the Logger, not
`MaxParallel`; with the zero-value `ManagerConfig`, `startGroup` calls
`eg.SetLimit(0)` and `eg.Go` blocks forever on the capacity-0 semaphore, so
`Start` over a non-empty enabled set never returns (modelled as `none`) —
contrary to the documented default of 10 ("Default: 10" on
`ManagerConfig.MaxParallel`) under which `Start` returns. -/
theorem c9_theorem :
    (Manager.Start (NewManagerWithRegistry [("a", { enabled := true })] {} regAB)
        wOk st0).isSome = false
    ∧ (Manager.Start (NewManagerWithRegistry [("a", { enabled := true })]
          DefaultManagerConfig regAB) wOk st0).map
        (fun r => (r.1, Manager.ListRunning r.2)) = some (none, ["a"]) := by
  exact ⟨by decide, by decide⟩

/-! ### Claim C10 -/

/-- C10: `Restart` is not atomic on failure: when the named service is
running, its termination succeeds, and the subsequent `startService` fails
with any error `e`, `Restart` returns `e` and the service is no longer
running — the pre-failure running record is not restored. -/
theorem c10_theorem (m : Manager) (w : World) (name : String) (st : MState)
    (env : ServiceEnv) (e : GoError)
    (hlook : lookupAL st.running name = some env)
    (hname : env.name = name)
    (hterm : w.termB env.container = none)
    (hfail : (Manager.startService m.registry w name env.config
        { running := eraseAL st.running name, nextId := st.nextId,
          log := st.log ++ [env.container] }).1 = some e) :
    (Manager.Restart m w name st).1 = some e
    ∧ Manager.IsRunning (Manager.Restart m w name st).2 name = false := by
  have hre : Manager.Restart m w name st
      = Manager.startService m.registry w name env.config
          { running := eraseAL st.running name, nextId := st.nextId,
            log := st.log ++ [env.container] } := by
    simp [Manager.Restart, hlook, Manager.stopService, hterm, hname]
  rw [hre]
  refine ⟨hfail, ?_⟩
  have hrun := startService_fail_running m.registry w name env.config
      { running := eraseAL st.running name, nextId := st.nextId,
        log := st.log ++ [env.container] } e hfail
  rw [isRunning_congr _ _ _ hrun]
  simp [Manager.IsRunning, lookupAL_eraseAL_self]

/-- C10 (witness): the registry is empty, so the re-start phase fails with
`ServiceNotFound` after the stop already removed the record. -/
theorem c10_witness :
    (Manager.Restart mEmptyReg wOk "a" stA).1 = some (.serviceNotFound "a")
    ∧ Manager.IsRunning (Manager.Restart mEmptyReg wOk "a" stA).2 "a" = false :=
  c10_theorem mEmptyReg wOk "a" stA envA (.serviceNotFound "a") rfl rfl rfl
    (by decide)

/-! ### Order properties of the `sort.Strings` comparator -/

theorem strLeAux_total : ∀ as bs, strLeAux as bs = true ∨ strLeAux bs as = true
  | [], _ => Or.inl rfl
  | _ :: _, [] => Or.inr rfl
  | a :: as, b :: bs => by
    simp only [strLeAux]
    rcases Nat.lt_trichotomy a.toNat b.toNat with h | h | h
    · exact Or.inl (by rw [if_pos h])
    · rcases strLeAux_total as bs with ht | ht
      · exact Or.inl (by rw [if_neg (by omega), if_neg (by omega)]; exact ht)
      · exact Or.inr (by rw [if_neg (by omega), if_neg (by omega)]; exact ht)
    · exact Or.inr (by rw [if_pos h])

theorem strLeAux_trans : ∀ as bs cs, strLeAux as bs = true →
    strLeAux bs cs = true → strLeAux as cs = true
  | [], _, _, _, _ => rfl
  | _ :: _, [], _, h1, _ => by simp [strLeAux] at h1
  | _ :: _, _ :: _, [], _, h2 => by simp [strLeAux] at h2
  | a :: as, b :: bs, c :: cs, h1, h2 => by
    simp only [strLeAux] at h1 h2 ⊢
    rcases Nat.lt_trichotomy a.toNat b.toNat with hab | hab | hab
    · rcases Nat.lt_trichotomy b.toNat c.toNat with hbc | hbc | hbc
      · rw [if_pos (by omega)]
      · rw [if_pos (by omega)]
      · rw [if_neg (by omega), if_pos hbc] at h2
        exact Bool.noConfusion h2
    · rcases Nat.lt_trichotomy b.toNat c.toNat with hbc | hbc | hbc
      · rw [if_pos (by omega)]
      · rw [if_neg (by omega), if_neg (by omega)] at h1
        rw [if_neg (by omega), if_neg (by omega)] at h2
        rw [if_neg (by omega), if_neg (by omega)]
        exact strLeAux_trans as bs cs h1 h2
      · rw [if_neg (by omega), if_pos hbc] at h2
        exact Bool.noConfusion h2
    · rw [if_neg (by omega), if_pos hab] at h1
      exact Bool.noConfusion h1

theorem strLeAux_antisymm : ∀ as bs, strLeAux as bs = true →
    strLeAux bs as = true → as = bs
  | [], [], _, _ => rfl
  | [], _ :: _, _, h2 => by simp [strLeAux] at h2
  | _ :: _, [], h1, _ => by simp [strLeAux] at h1
  | a :: as, b :: bs, h1, h2 => by
    simp only [strLeAux] at h1 h2
    rcases Nat.lt_trichotomy a.toNat b.toNat with h | h | h
    · rw [if_neg (by omega), if_pos h] at h2
      exact Bool.noConfusion h2
    · rw [if_neg (by omega), if_neg (by omega)] at h1 h2
      have hc : a = b := Char.ext (UInt32.toNat.inj h)
      rw [hc, strLeAux_antisymm as bs h1 h2]
    · rw [if_neg (by omega), if_pos h] at h1
      exact Bool.noConfusion h1

theorem strLe_total (a b : String) : strLe a b = true ∨ strLe b a = true :=
  strLeAux_total a.data b.data

theorem strLe_trans (a b c : String) (h1 : strLe a b = true)
    (h2 : strLe b c = true) : strLe a c = true :=
  strLeAux_trans a.data b.data c.data h1 h2

theorem strLe_antisymm (a b : String) (h1 : strLe a b = true)
    (h2 : strLe b a = true) : a = b :=
  String.ext (strLeAux_antisymm a.data b.data h1 h2)

/-- Two permuted name lists have the same `sort.Strings` result. -/
theorem sortedNames_eq_of_perm (l1 l2 : List String) (h : l1.Perm l2) :
    List.insertionSort (fun a b => strLe a b = true) l1
      = List.insertionSort (fun a b => strLe a b = true) l2 := by
  haveI ht : IsTotal String (fun a b => strLe a b = true) := ⟨strLe_total⟩
  haveI htr : IsTrans String (fun a b => strLe a b = true) :=
    ⟨fun a b c => strLe_trans a b c⟩
  haveI ha : IsAntisymm String (fun a b => strLe a b = true) := ⟨strLe_antisymm⟩
  exact List.eq_of_perm_of_sorted
    (((List.perm_insertionSort _ _).trans h).trans
      (List.perm_insertionSort _ _).symm)
    (List.sorted_insertionSort _ _) (List.sorted_insertionSort _ _)

/-! ### Key-set and well-formedness lemmas for the start path -/

theorem insertAL_of_not_mem {α : Type} (l : List (String × α)) (k : String)
    (v : α) (h : k ∉ l.map (·.1)) : insertAL l k v = l ++ [(k, v)] := by
  induction l with
  | nil => rfl
  | cons p rest ih =>
    simp only [List.map_cons, List.mem_cons] at h
    push_neg at h
    simp only [insertAL, beq_iff_eq]
    rw [if_neg (fun he => h.1 he.symm), ih h.2]
    rfl

theorem WF_insertAL (l : List (String × ServiceEnv)) (n : String)
    (v : ServiceEnv) (hv : v.name = n) (h : ∀ p ∈ l, p.2.name = p.1) :
    ∀ p ∈ insertAL l n v, p.2.name = p.1 := by
  induction l with
  | nil =>
    intro p hp
    simp only [insertAL, List.mem_singleton] at hp
    rw [hp]
    exact hv
  | cons q rest ih =>
    intro p hp
    simp only [insertAL] at hp
    by_cases hq : q.1 == n
    · rw [if_pos hq] at hp
      rcases List.mem_cons.mp hp with he | hm
      · rw [he]; exact hv
      · exact h p (List.mem_cons_of_mem q hm)
    · rw [if_neg hq] at hp
      rcases List.mem_cons.mp hp with he | hm
      · rw [he]; exact h q (List.mem_cons_self q rest)
      · exact ih (fun p2 hp2 => h p2 (List.mem_cons_of_mem q hp2)) p hm

theorem startService_success_state (reg : Registry) (w : World) (n : String)
    (c : Config) (st : MState)
    (h : (Manager.startService reg w n c st).1 = none) :
    (Manager.startService reg w n c st).2
      = { running := insertAL st.running n ⟨n, st.nextId, c⟩,
          nextId := st.nextId + 1, log := st.log } := by
  rcases startService_spec reg w n c st with
    ⟨d, _, hs⟩ | ⟨_, _, hs⟩ | ⟨r, e2, _, _, _, hs⟩ |
    ⟨r, hc, he, _, _, _, _, _, hs⟩ | ⟨_, h2⟩
  · rw [hs] at h; cases h
  · rw [hs] at h; cases h
  · rw [hs] at h; cases h
  · rw [hs] at h; cases h
  · exact h2

theorem startService_WF (reg : Registry) (w : World) (n : String) (c : Config)
    (st : MState) (h : ∀ p ∈ st.running, p.2.name = p.1) :
    ∀ p ∈ (Manager.startService reg w n c st).2.running, p.2.name = p.1 := by
  cases hf : (Manager.startService reg w n c st).1 with
  | some e =>
    rw [startService_fail_running reg w n c st e hf]
    exact h
  | none =>
    rw [startService_success_state reg w n c st hf]
    exact WF_insertAL st.running n ⟨n, st.nextId, c⟩ rfl h

theorem startService_keys_subset (reg : Registry) (w : World) (n : String)
    (c : Config) (st : MState) :
    ∀ k ∈ (Manager.startService reg w n c st).2.running.map (·.1),
      k ∈ st.running.map (·.1) ∨ k = n := by
  intro k hk
  cases hf : (Manager.startService reg w n c st).1 with
  | some e =>
    rw [startService_fail_running reg w n c st e hf] at hk
    exact Or.inl hk
  | none =>
    rw [startService_success_state reg w n c st hf] at hk
    rcases (mem_keys_insertAL st.running n k ⟨n, st.nextId, c⟩).mp hk with he | hm
    · exact Or.inr he
    · exact Or.inl hm

theorem runGroup_fst_none (reg : Registry) (w : World)
    (nc : String × Config) (rest : List (String × Config)) (st : MState)
    (h : (Manager.runGroup reg w (nc :: rest) st).1 = none) :
    (Manager.startService reg w nc.1 nc.2 st).1 = none
    ∧ (Manager.runGroup reg w rest
        (Manager.startService reg w nc.1 nc.2 st).2).1 = none := by
  revert h
  simp only [Manager.runGroup]
  cases (Manager.startService reg w nc.1 nc.2 st).1 with
  | some e => intro h; cases h
  | none => intro h; exact ⟨rfl, h⟩

theorem runGroup_WF (reg : Registry) (w : World) :
    ∀ (cfgs : List (String × Config)) (st : MState),
    (∀ p ∈ st.running, p.2.name = p.1) →
    ∀ p ∈ (Manager.runGroup reg w cfgs st).2.running, p.2.name = p.1 := by
  intro cfgs
  induction cfgs with
  | nil => intro st h; exact h
  | cons nc rest ih =>
    intro st h
    exact ih _ (startService_WF reg w nc.1 nc.2 st h)

theorem runGroup_keys_subset (reg : Registry) (w : World) :
    ∀ (cfgs : List (String × Config)) (st : MState),
    ∀ k ∈ (Manager.runGroup reg w cfgs st).2.running.map (·.1),
      k ∈ st.running.map (·.1) ∨ k ∈ cfgs.map (·.1) := by
  intro cfgs
  induction cfgs with
  | nil => intro st k hk; exact Or.inl hk
  | cons nc rest ih =>
    intro st k hk
    rcases ih (Manager.startService reg w nc.1 nc.2 st).2 k hk with hm | hm
    · rcases startService_keys_subset reg w nc.1 nc.2 st k hm with h1 | h1
      · exact Or.inl h1
      · exact Or.inr (by rw [h1]; exact List.mem_cons_self _ _)
    · exact Or.inr (List.mem_cons_of_mem _ hm)

theorem runGroup_success_keys (reg : Registry) (w : World) :
    ∀ (cfgs : List (String × Config)) (st : MState),
    (Manager.runGroup reg w cfgs st).1 = none →
    ((st.running.map (·.1)) ++ cfgs.map (·.1)).Nodup →
    (Manager.runGroup reg w cfgs st).2.running.map (·.1)
      = st.running.map (·.1) ++ cfgs.map (·.1) := by
  intro cfgs
  induction cfgs with
  | nil => intro st _ _; simp [Manager.runGroup]
  | cons nc rest ih =>
    intro st h hnd
    rcases runGroup_fst_none reg w nc rest st h with ⟨h1, h2⟩
    have hnotmem : nc.1 ∉ st.running.map (·.1) := by
      rcases List.nodup_append.mp hnd with ⟨_, _, hdisj⟩
      intro hmem
      exact hdisj hmem (by simp)
    have hrun1 : (Manager.startService reg w nc.1 nc.2 st).2.running
        = st.running ++ [(nc.1, ⟨nc.1, st.nextId, nc.2⟩)] := by
      rw [startService_success_state reg w nc.1 nc.2 st h1]
      exact insertAL_of_not_mem st.running nc.1 _ hnotmem
    have hkeys1 : (Manager.startService reg w nc.1 nc.2 st).2.running.map (·.1)
        = st.running.map (·.1) ++ [nc.1] := by
      rw [hrun1]
      simp
    have step : (Manager.runGroup reg w (nc :: rest) st).2
        = (Manager.runGroup reg w rest
            (Manager.startService reg w nc.1 nc.2 st).2).2 := by
      simp only [Manager.runGroup]
    rw [step, ih _ h2 (by rw [hkeys1, List.append_assoc]; simpa using hnd),
      hkeys1, List.append_assoc]
    rfl

/-! ### The stop path: first error, and which entries get removed -/

theorem runStops_running (w : World) :
    ∀ (envs : List ServiceEnv) (st : MState),
    (Manager.runStops w envs st).2.running
      = st.running.filter
          (fun p => decide (∀ e ∈ envs,
            w.termB e.container = none → e.name ≠ p.1)) := by
  intro envs
  induction envs with
  | nil =>
    intro st
    simp [Manager.runStops]
  | cons e rest ih =>
    intro st
    have step : (Manager.runStops w (e :: rest) st).2
        = (Manager.runStops w rest (Manager.stopService w e st).2).2 := by
      simp only [Manager.runStops]
    rw [step, ih]
    cases ht : w.termB e.container with
    | some err =>
      have hrun : (Manager.stopService w e st).2.running = st.running := by
        simp [Manager.stopService, ht]
      rw [hrun]
      apply List.filter_congr
      intro p _
      simp only [decide_eq_decide]
      constructor
      · intro hall e2 he2 hnone
        rcases List.mem_cons.mp he2 with he | hm
        · rw [he, ht] at hnone; cases hnone
        · exact hall e2 hm hnone
      · intro hall e2 he2 hnone
        exact hall e2 (List.mem_cons_of_mem e he2) hnone
    | none =>
      have hrun : (Manager.stopService w e st).2.running
          = st.running.filter (fun p => p.1 != e.name) := by
        simp [Manager.stopService, ht, eraseAL]
      rw [hrun, List.filter_filter]
      apply List.filter_congr
      intro p _
      have hbool : ∀ x y : Bool, (x = true ↔ y = true) → x = y := by decide
      apply hbool
      simp only [Bool.and_eq_true, decide_eq_true_eq, bne_iff_ne, ne_eq]
      constructor
      · rintro ⟨hall, hne⟩ e2 he2 hnone
        rcases List.mem_cons.mp he2 with he | hm
        · rw [he]; intro hc; exact hne hc.symm
        · exact hall e2 hm hnone
      · intro hall
        refine ⟨fun e2 hm hnone => hall e2 (List.mem_cons_of_mem e hm) hnone, ?_⟩
        intro hc
        exact (hall e (List.mem_cons_self e rest) ht) hc.symm

theorem runStops_fst (w : World) :
    ∀ (envs : List ServiceEnv) (st : MState),
    (Manager.runStops w envs st).1
      = (envs.find? (fun e => (w.termB e.container).isSome)).bind
          (fun e => (w.termB e.container).map
            (fun cause => GoError.serviceStopFailed e.name cause)) := by
  intro envs
  induction envs with
  | nil => intro st; rfl
  | cons e rest ih =>
    intro st
    cases ht : w.termB e.container with
    | some err =>
      have h1 : (Manager.stopService w e st).1
          = some (.serviceStopFailed e.name err) := by
        simp [Manager.stopService, ht]
      have hfind : (e :: rest).find? (fun e2 => (w.termB e2.container).isSome)
          = some e :=
        List.find?_cons_of_pos _ (by simp [ht])
      rw [hfind]
      simp only [Manager.runStops, h1]
      simp [ht]
    | none =>
      have h1 : (Manager.stopService w e st).1 = none := by
        simp [Manager.stopService, ht]
      have hfind : (e :: rest).find? (fun e2 => (w.termB e2.container).isSome)
          = rest.find? (fun e2 => (w.termB e2.container).isSome) :=
        List.find?_cons_of_neg _ (by simp [ht])
      rw [hfind]
      simp only [Manager.runStops, h1]
      exact ih _

theorem mem_sortEnvsDesc (envs : List ServiceEnv) (e : ServiceEnv) :
    e ∈ sortEnvsDesc envs ↔ e ∈ envs :=
  (List.perm_insertionSort _ envs).mem_iff

theorem Stop_running (w : World) (st : MState) :
    (Manager.Stop w st).2.running
      = st.running.filter
          (fun p => decide (∀ e ∈ st.running.map (·.2),
            w.termB e.container = none → e.name ≠ p.1)) := by
  simp only [Manager.Stop]
  cases hemp : (st.running.map (fun p => p.2)).isEmpty with
  | true =>
    have hnil : st.running = [] := by
      rcases List.isEmpty_iff.mp hemp with h
      exact List.map_eq_nil.mp h
    simp [hnil]
  | false =>
    simp only [Bool.false_eq_true, if_false]
    rw [runStops_running]
    apply List.filter_congr
    intro p _
    simp only [decide_eq_decide]
    constructor
    · intro hall e2 he2 hnone
      exact hall e2 ((mem_sortEnvsDesc _ e2).mpr he2) hnone
    · intro hall e2 he2 hnone
      exact hall e2 ((mem_sortEnvsDesc _ e2).mp he2) hnone

theorem Stop_fst (w : World) (st : MState) :
    (Manager.Stop w st).1
      = ((sortEnvsDesc (st.running.map (·.2))).find?
          (fun e => (w.termB e.container).isSome)).bind
          (fun e => (w.termB e.container).map
            (fun cause => GoError.serviceStopFailed e.name cause)) := by
  simp only [Manager.Stop]
  cases hemp : (st.running.map (fun p => p.2)).isEmpty with
  | true =>
    have hnil : st.running = [] := by
      rcases List.isEmpty_iff.mp hemp with h
      exact List.map_eq_nil.mp h
    simp [hnil, sortEnvsDesc]
  | false =>
    simp only [Bool.false_eq_true, if_false]
    exact runStops_fst w _ st

theorem Stop_WF (w : World) (st : MState)
    (h : ∀ p ∈ st.running, p.2.name = p.1) :
    ∀ p ∈ (Manager.Stop w st).2.running, p.2.name = p.1 := by
  intro p hp
  rw [Stop_running] at hp
  exact h p (List.mem_of_mem_filter hp)

theorem Stop_keys_subset (w : World) (st : MState) :
    ∀ k ∈ (Manager.Stop w st).2.running.map (·.1), k ∈ st.running.map (·.1) := by
  intro k hk
  rw [Stop_running] at hk
  rcases List.mem_map.mp hk with ⟨p, hp, he⟩
  exact List.mem_map.mpr ⟨p, List.mem_of_mem_filter hp, he⟩

theorem Stop_clears (w : World) (st : MState)
    (hterm : ∀ i, w.termB i = none)
    (hwf : ∀ p ∈ st.running, p.2.name = p.1) :
    (Manager.Stop w st).2.running = [] := by
  rw [Stop_running, List.filter_eq_nil_iff]
  intro p hp hptrue
  simp only [decide_eq_true_eq] at hptrue
  exact hptrue p.2 (List.mem_map_of_mem _ hp) (hterm _) (hwf p hp)

theorem eq_of_mem_of_nodup_keys {α : Type} :
    ∀ {l : List (String × α)}, (l.map (·.1)).Nodup →
    ∀ {p q : String × α}, p ∈ l → q ∈ l → p.1 = q.1 → p = q := by
  intro l
  induction l with
  | nil => intro _ p q hp; cases hp
  | cons x rest ih =>
    intro hnd p q hp hq he
    simp only [List.map_cons, List.nodup_cons] at hnd
    rcases List.mem_cons.mp hp with hp1 | hp1 <;>
      rcases List.mem_cons.mp hq with hq1 | hq1
    · rw [hp1, hq1]
    · exfalso
      apply hnd.1
      have hx : x.1 = q.1 := by rw [← hp1]; exact he
      rw [hx]
      exact List.mem_map_of_mem (·.1) hq1
    · exfalso
      apply hnd.1
      have hx : x.1 = p.1 := by rw [← hq1]; exact he.symm
      rw [hx]
      exact List.mem_map_of_mem (·.1) hp1
    · exact ih hnd.2 hp1 hq1 he

/-! ### Claim C4 (amended theorem) -/

/-- C4 (amended): when terminations fail, `Stop` returns a single
`ServiceStopFailed` — the first termination failure to complete, wrapping
that one service's cause — not an aggregate containing all termination
errors; it returns nil iff every termination succeeded; and partial success
is preserved, not rolled back: every successfully terminated entry is
removed from the running set even when sibling terminations fail, while
entries whose termination failed remain. -/
theorem c4_theorem (w : World) (st : MState)
    (hwf : ∀ p ∈ st.running, p.2.name = p.1)
    (hnd : (st.running.map (·.1)).Nodup) :
    (∀ p ∈ st.running, w.termB p.2.container = none →
       Manager.IsRunning (Manager.Stop w st).2 p.1 = false) ∧
    (∀ p ∈ st.running, (w.termB p.2.container).isSome = true →
       Manager.IsRunning (Manager.Stop w st).2 p.1 = true) ∧
    ((Manager.Stop w st).1 = none ↔
       ∀ p ∈ st.running, w.termB p.2.container = none) ∧
    (∀ e, (Manager.Stop w st).1 = some e →
       ∃ env, env ∈ st.running.map (·.2) ∧ ∃ cause,
         w.termB env.container = some cause ∧
         e = .serviceStopFailed env.name cause) := by
  refine ⟨?_, ?_, ?_, ?_⟩
  · intro p hp hterm
    cases hb : Manager.IsRunning (Manager.Stop w st).2 p.1 with
    | false => rfl
    | true =>
      exfalso
      have hmem := (isRunning_iff_mem _ _).mp hb
      rw [Stop_running] at hmem
      rcases List.mem_map.mp hmem with ⟨q, hq, hqe⟩
      have hqf := List.of_mem_filter hq
      simp only [decide_eq_true_eq] at hqf
      exact hqf p.2 (List.mem_map_of_mem _ hp) hterm (by rw [hwf p hp, hqe])
  · intro p hp hsome
    rw [isRunning_iff_mem, Stop_running]
    apply List.mem_map_of_mem
    apply List.mem_filter.mpr
    refine ⟨hp, ?_⟩
    simp only [decide_eq_true_eq]
    intro e he hnone hc
    rcases List.mem_map.mp he with ⟨q, hq, hqe⟩
    have hq1 : q.1 = p.1 := by
      rw [← hwf q hq, hqe]
      exact hc
    have heq : q = p := eq_of_mem_of_nodup_keys hnd hq hp hq1
    rw [← heq, hqe, hnone] at hsome
    cases hsome
  · rw [Stop_fst]
    constructor
    · intro h p hp
      cases hfind : (sortEnvsDesc (st.running.map (·.2))).find?
          (fun e => (w.termB e.container).isSome) with
      | some e0 =>
        rw [hfind, Option.some_bind] at h
        have hps := List.find?_some hfind
        rcases Option.isSome_iff_exists.mp hps with ⟨cause, hcause⟩
        rw [hcause] at h
        simp at h
      | none =>
        have hall := List.find?_eq_none.mp hfind
        have hp2 : p.2 ∈ sortEnvsDesc (st.running.map (·.2)) :=
          (mem_sortEnvsDesc _ _).mpr (List.mem_map_of_mem _ hp)
        cases hx : w.termB p.2.container with
        | none => rfl
        | some v =>
          exfalso
          exact hall p.2 hp2 (by simp [hx])
    · intro hall
      have hfind : (sortEnvsDesc (st.running.map (·.2))).find?
          (fun e => (w.termB e.container).isSome) = none := by
        rw [List.find?_eq_none]
        intro e he
        rcases List.mem_map.mp ((mem_sortEnvsDesc _ _).mp he) with ⟨q, hq, hqe⟩
        rw [← hqe, hall q hq]
        simp
      rw [hfind]
      rfl
  · intro e h
    rw [Stop_fst] at h
    rcases Option.bind_eq_some.mp h with ⟨e0, hfind, hmap⟩
    rcases Option.map_eq_some'.mp hmap with ⟨cause, hcause, he⟩
    refine ⟨e0, ?_, cause, hcause, he.symm⟩
    exact (mem_sortEnvsDesc _ _).mp (List.mem_of_find?_eq_some hfind)

/-- C4 (witness for the amended theorem). -/
theorem c4_witness :
    Manager.IsRunning (Manager.Stop wOk stA).2 "a" = false
    ∧ (Manager.Stop wOk stA).1 = none := by
  have h := c4_theorem wOk stA (by decide) (by decide)
  exact ⟨h.1 ("a", envA) (by simp [stA]) rfl, h.2.2.1.mpr (fun p hp => rfl)⟩

/-! ### Benign environments: the only possible failure is a missing dependency -/

theorem startService_benign (reg : Registry) (w : World) (n : String)
    (c : Config) (st : MState) (hb : benignUnit reg n c) :
    (Manager.startService reg w n c st).1 = none ∨
    ∃ d, (Manager.startService reg w n c st).1
      = some (.dependencyNotMet n d) := by
  rcases hb with ⟨⟨runner, hget, hrun⟩, hhc⟩
  rcases startService_spec reg w n c st with
    ⟨d, _, hs⟩ | ⟨_, hg, _⟩ | ⟨r, e2, _, hg, hr, _⟩ |
    ⟨r, hc, he, _, _, _, hc2, hhe, _⟩ | ⟨h1, _⟩
  · exact Or.inr ⟨d, by rw [hs]⟩
  · rw [hget] at hg; cases hg
  · rw [hget] at hg
    cases hg
    rw [hrun c.opts st.nextId] at hr
    cases hr
  · rw [hhc hc hc2 st.nextId] at hhe
    cases hhe
  · exact Or.inl h1

theorem runGroup_benign (reg : Registry) (w : World) :
    ∀ (cfgs : List (String × Config)) (st : MState),
    (∀ nc ∈ cfgs, benignUnit reg nc.1 nc.2) →
    (Manager.runGroup reg w cfgs st).1 = none ∨
    ∃ n d, (Manager.runGroup reg w cfgs st).1
      = some (.dependencyNotMet n d) := by
  intro cfgs
  induction cfgs with
  | nil => intro st _; exact Or.inl rfl
  | cons nc rest ih =>
    intro st hb
    rcases startService_benign reg w nc.1 nc.2 st
        (hb nc (List.mem_cons_self nc rest)) with h1 | ⟨d, h1⟩
    · have hstep : (Manager.runGroup reg w (nc :: rest) st).1
          = (Manager.runGroup reg w rest
              (Manager.startService reg w nc.1 nc.2 st).2).1 := by
        simp only [Manager.runGroup, h1]
      rw [hstep]
      exact ih _ (fun nc2 h => hb nc2 (List.mem_cons_of_mem nc h))
    · refine Or.inr ⟨nc.1, d, ?_⟩
      simp only [Manager.runGroup, h1]

theorem runGroup_fails (reg : Registry) (w : World) (S : List String) :
    ∀ (cfgs : List (String × Config)) (st : MState),
    (∀ k ∈ st.running.map (·.1), k ∈ S) →
    (∀ k ∈ cfgs.map (·.1), k ∈ S) →
    ∀ s cs d, (s, cs) ∈ cfgs → d ∈ cs.dependencies → d ∉ S →
    ¬ (Manager.runGroup reg w cfgs st).1 = none := by
  intro cfgs
  induction cfgs with
  | nil =>
    intro st _ _ s cs d hmem
    cases hmem
  | cons nc rest ih =>
    intro st hkeys hgrp s cs d hmem hd hdS h
    rcases runGroup_fst_none reg w nc rest st h with ⟨h1, h2⟩
    rcases List.mem_cons.mp hmem with he | hm
    · have hcs : cs = nc.2 := by rw [← he]
      have hnr : Manager.IsRunning st d = false := by
        cases hb : Manager.IsRunning st d with
        | false => rfl
        | true => exact absurd (hkeys d ((isRunning_iff_mem st d).mp hb)) hdS
      have hfind : ¬ findUnmetDep st nc.2.dependencies = none := by
        rw [findUnmetDep, List.find?_eq_none]
        intro hall
        have hd2 : d ∈ nc.2.dependencies := by rw [← hcs]; exact hd
        exact hall d hd2 (by rw [hnr]; rfl)
      cases hfd : findUnmetDep st nc.2.dependencies with
      | none => exact hfind hfd
      | some d0 => simp [Manager.startService, hfd] at h1
    · refine ih (Manager.startService reg w nc.1 nc.2 st).2 ?_ ?_ s cs d hm hd
        hdS h2
      · intro k hk
        rcases startService_keys_subset reg w nc.1 nc.2 st k hk with hx | hx
        · exact hkeys k hx
        · exact hgrp k (by rw [hx]; simp)
      · intro k hk
        apply hgrp k
        simp only [List.map_cons, List.mem_cons]
        exact Or.inr hk

/-! ### The priority loop under a benign environment with a missing dependency -/

theorem startPriorities_bad_dep (m : Manager) (w : World)
    (hmp : ¬ m.mconfig.maxParallel = 0)
    (hsoe : m.mconfig.stopOnError = true)
    (hterm : ∀ i, w.termB i = none)
    (hben : ∀ nc ∈ enabledConfigs m.config, benignUnit m.registry nc.1 nc.2)
    (s : String) (cs : Config) (d : String)
    (hsE : (s, cs) ∈ enabledConfigs m.config)
    (hd : d ∈ cs.dependencies)
    (habs : d ∉ (enabledConfigs m.config).map (·.1)) :
    ∀ (ps : List Int) (st : MState),
    (∀ p ∈ st.running, p.2.name = p.1) →
    (∀ k ∈ st.running.map (·.1), k ∈ (enabledConfigs m.config).map (·.1)) →
    cs.priority ∈ ps →
    ∃ n2 d2 stOut, Manager.startPriorities m w ps st
        = some (some (.dependencyNotMet n2 d2), stOut) ∧ stOut.running = [] := by
  intro ps
  induction ps with
  | nil =>
    intro st _ _ hpmem
    cases hpmem
  | cons p ps ih =>
    intro st hwf hkeys hpmem
    have hgroupben : ∀ nc ∈ m.groupByPriority p, benignUnit m.registry nc.1 nc.2 :=
      fun nc hnc => hben nc (List.mem_of_mem_filter hnc)
    have hgroupkeys : ∀ k ∈ (m.groupByPriority p).map (·.1),
        k ∈ (enabledConfigs m.config).map (·.1) := by
      intro k hk
      rcases List.mem_map.mp hk with ⟨nc, hnc, he⟩
      exact List.mem_map.mpr ⟨nc, List.mem_of_mem_filter hnc, he⟩
    have hsg : Manager.startGroup m w (m.groupByPriority p) st
        = some (Manager.runGroup m.registry w (m.groupByPriority p) st) := by
      simp only [Manager.startGroup]
      rw [if_neg (fun hcond => hmp hcond.1)]
    cases hr : (Manager.runGroup m.registry w (m.groupByPriority p) st).1 with
    | some e =>
      rcases runGroup_benign m.registry w (m.groupByPriority p) st hgroupben
          with h0 | ⟨n2, d2, h0⟩
      · rw [hr] at h0; cases h0
      · rw [hr] at h0
        injection h0 with h0
        refine ⟨n2, d2,
          (Manager.Stop w (Manager.runGroup m.registry w
            (m.groupByPriority p) st).2).2, ?_, ?_⟩
        · have hpair : Manager.runGroup m.registry w (m.groupByPriority p) st
              = (some (.dependencyNotMet n2 d2),
                 (Manager.runGroup m.registry w (m.groupByPriority p) st).2) := by
            rw [← h0, ← hr]
          simp only [Manager.startPriorities, hsg]
          rw [hpair]
          simp only [hsoe, if_true]
        · exact Stop_clears w _ (hterm)
            (runGroup_WF m.registry w (m.groupByPriority p) st hwf)
    | none =>
      by_cases hpp : cs.priority = p
      · exfalso
        apply runGroup_fails m.registry w ((enabledConfigs m.config).map (·.1))
          (m.groupByPriority p) st hkeys hgroupkeys s cs d ?_ hd habs hr
        apply List.mem_filter.mpr
        refine ⟨hsE, ?_⟩
        simp [hpp]
      · have hps2 : cs.priority ∈ ps := by
          rcases List.mem_cons.mp hpmem with hx | hx
          · exact absurd hx hpp
          · exact hx
        have hwf2 := runGroup_WF m.registry w (m.groupByPriority p) st hwf
        have hkeys2 : ∀ k ∈ (Manager.runGroup m.registry w
            (m.groupByPriority p) st).2.running.map (·.1),
            k ∈ (enabledConfigs m.config).map (·.1) := by
          intro k hk
          rcases runGroup_keys_subset m.registry w (m.groupByPriority p) st k hk
              with hx | hx
          · exact hkeys k hx
          · exact hgroupkeys k hx
        rcases ih (Manager.runGroup m.registry w (m.groupByPriority p) st).2
            hwf2 hkeys2 hps2 with ⟨n2, d2, stOut, heq, hrunOut⟩
        refine ⟨n2, d2, stOut, ?_, hrunOut⟩
        have hpair : Manager.runGroup m.registry w (m.groupByPriority p) st
            = (none, (Manager.runGroup m.registry w
                (m.groupByPriority p) st).2) := by
          rw [← hr]
        simp only [Manager.startPriorities, hsg]
        rw [hpair]
        exact heq

/-! ### Claim C2 (amended theorem) -/

/-- C2 (amended): for every configuration containing an enabled service
whose dependency list names a service absent from the enabled set, with
`StopOnError` (the default), a non-zero `MaxParallel`, terminations that
succeed, and every enabled service benign (registered, runner and health
check cannot fail), `Start` from a fresh manager fails with a
`DependencyNotMet` error, after stopping every service that did
successfully start (swallowing cleanup errors), so `ListRunning` is empty
while the failure is returned. -/
theorem c2_theorem (m : Manager) (w : World) (s : String) (cs : Config)
    (d : String)
    (hmp : ¬ m.mconfig.maxParallel = 0)
    (hsoe : m.mconfig.stopOnError = true)
    (hterm : ∀ i, w.termB i = none)
    (hben : ∀ nc ∈ enabledConfigs m.config, benignUnit m.registry nc.1 nc.2)
    (hmem : (s, cs) ∈ m.config) (hen : cs.enabled = true)
    (hd : d ∈ cs.dependencies)
    (habs : d ∉ (enabledConfigs m.config).map (·.1)) :
    ∃ n2 d2, (Manager.Start m w st0).map
        (fun r => (r.1, Manager.ListRunning r.2))
      = some (some (.dependencyNotMet n2 d2), []) := by
  have hsE : (s, cs) ∈ enabledConfigs m.config :=
    List.mem_filter.mpr ⟨hmem, by simp [hen]⟩
  have hp : cs.priority ∈ m.getSortedPriorities := by
    apply (List.perm_insertionSort _ _).mem_iff.mpr
    apply List.mem_dedup.mpr
    exact List.mem_map_of_mem _ hsE
  rcases startPriorities_bad_dep m w hmp hsoe hterm hben s cs d hsE hd habs
      m.getSortedPriorities st0 (fun p hp2 => absurd hp2 (List.not_mem_nil p))
      (fun k hk => absurd hk (List.not_mem_nil k)) hp with
    ⟨n2, d2, stOut, heq, hrun⟩
  refine ⟨n2, d2, ?_⟩
  rw [show Manager.Start m w st0
      = Manager.startPriorities m w m.getSortedPriorities st0 from rfl, heq]
  simp [Manager.ListRunning, hrun]

/-- C2 (witness for the amended theorem). -/
theorem c2_witness :
    ∃ n2 d2, (Manager.Start mGhost wOk st0).map
        (fun r => (r.1, Manager.ListRunning r.2))
      = some (some (.dependencyNotMet n2 d2), []) := by
  apply c2_theorem mGhost wOk "b" { enabled := true, dependencies := ["ghost"] }
    "ghost"
  · decide
  · rfl
  · intro i; rfl
  · intro nc hnc
    have hE : enabledConfigs mGhost.config
        = [("a", { enabled := true }),
           ("b", { enabled := true, dependencies := ["ghost"] })] := rfl
    rw [hE] at hnc
    rcases List.mem_cons.mp hnc with rfl | hnc2
    · exact ⟨⟨runnerOk, rfl, fun o i => rfl⟩, fun hc h => by cases h⟩
    · rcases List.mem_cons.mp hnc2 with rfl | hnc3
      · exact ⟨⟨runnerOk, rfl, fun o i => rfl⟩, fun hc h => by cases h⟩
      · cases hnc3
  · simp [mGhost]
  · rfl
  · simp
  · decide

/-! ### Partitioning the enabled set by priority is a permutation -/

theorem join_filter_perm {α β : Type} [DecidableEq β] (f : α → β) :
    ∀ (ks : List β) (l : List α), ks.Nodup → (∀ a ∈ l, f a ∈ ks) →
    ((ks.map (fun k => l.filter (fun a => f a == k))).flatten).Perm l := by
  intro ks
  induction ks with
  | nil =>
    intro l _ hcov
    cases l with
    | nil => simp
    | cons a rest =>
      exact absurd (hcov a (List.mem_cons_self a rest)) (List.not_mem_nil _)
  | cons k ks ih =>
    intro l hnd hcov
    simp only [List.map_cons, List.flatten_cons]
    have hrest : ∀ k2 ∈ ks, l.filter (fun a => f a == k2)
        = (l.filter (fun a => !(f a == k))).filter (fun a => f a == k2) := by
      intro k2 hk2
      rw [List.filter_filter]
      apply List.filter_congr
      intro a _
      cases hak : f a == k2 with
      | false => simp
      | true =>
        have hk2e : f a = k2 := by simpa using hak
        have hne : (f a == k) = false := by
          apply beq_eq_false_iff_ne.mpr
          intro he
          exact (List.nodup_cons.mp hnd).1 (by rw [← he, hk2e]; exact hk2)
        simp [hne]
    have hmapeq : ks.map (fun k2 => l.filter (fun a => f a == k2))
        = ks.map (fun k2 =>
            (l.filter (fun a => !(f a == k))).filter (fun a => f a == k2)) :=
      List.map_congr_left hrest
    rw [hmapeq]
    have hcov2 : ∀ a ∈ l.filter (fun a => !(f a == k)), f a ∈ ks := by
      intro a ha
      have hal := List.mem_of_mem_filter ha
      have hpa := List.of_mem_filter ha
      rcases List.mem_cons.mp (hcov a hal) with he | hm
      · exfalso
        rw [he] at hpa
        simp at hpa
      · exact hm
    have hihp := ih (l.filter (fun a => !(f a == k)))
        (List.nodup_cons.mp hnd).2 hcov2
    exact (hihp.append_left (l.filter (fun a => f a == k))).trans
      (List.filter_append_perm (fun a => f a == k) l)

/-! ### Successful `startPriorities` runs produce exactly the grouped keys -/

theorem startPriorities_success_keys (m : Manager) (w : World) :
    ∀ (ps : List Int) (st : MState) (stOut : MState),
    Manager.startPriorities m w ps st = some (none, stOut) →
    ((st.running.map (·.1))
      ++ (ps.map (fun p => (m.groupByPriority p).map (·.1))).flatten).Nodup →
    stOut.running.map (·.1)
      = st.running.map (·.1)
        ++ (ps.map (fun p => (m.groupByPriority p).map (·.1))).flatten := by
  intro ps
  induction ps with
  | nil =>
    intro st stOut h _
    simp only [Manager.startPriorities] at h
    injection h with h
    injection h with _ h2
    rw [← h2]
    simp
  | cons p ps ih =>
    intro st stOut h hnd
    simp only [Manager.startPriorities] at h
    split at h
    · cases h
    · rename_i e st1 heq
      split at h <;> exact absurd (Option.some.inj h) (by simp)
    · rename_i st1 heq
      simp only [Manager.startGroup] at heq
      split at heq
      · cases heq
      · injection heq with hpair
        have hrg1 : (Manager.runGroup m.registry w
            (m.groupByPriority p) st).1 = none := by rw [hpair]
        have hrg2 : (Manager.runGroup m.registry w
            (m.groupByPriority p) st).2 = st1 := by rw [hpair]
        simp only [List.map_cons, List.flatten_cons] at hnd ⊢
        rw [← List.append_assoc] at hnd ⊢
        have hnd1 : ((st.running.map (·.1))
            ++ (m.groupByPriority p).map (·.1)).Nodup :=
          hnd.of_append_left
        have hk1 := runGroup_success_keys m.registry w (m.groupByPriority p)
          st hrg1 hnd1
        rw [hrg2] at hk1
        rw [← hk1] at hnd ⊢
        exact ih st1 stOut h hnd

/-! ### Claim C3 (amended theorem) -/

/-- C3 (amended): for every configuration with distinct names, if `Start`
from a fresh manager succeeds, `ListRunning` returns exactly the set of
`Enabled` service names in ascending lexicographic order; and a service
with `Enabled = false` is excluded from grouping, never started, and never
appears in the result.  (When a dependency is unsatisfiable `Start` fails
instead, and with the default `StopOnError` the running set is emptied —
claim C2.) -/
theorem c3_theorem (m : Manager) (w : World)
    (hnd : (m.config.map (·.1)).Nodup)
    (hs : (Manager.Start m w st0).map (fun r => r.1) = some none) :
    (Manager.Start m w st0).map (fun r => Manager.ListRunning r.2)
      = some (sortedEnabledNames m.config)
    ∧ ∀ n c, (n, c) ∈ m.config → c.enabled = false →
        ∀ names, (Manager.Start m w st0).map (fun r => Manager.ListRunning r.2)
          = some names → n ∉ names := by
  have hEnd : ((enabledConfigs m.config).map (·.1)).Nodup :=
    List.Nodup.sublist (List.Sublist.map (·.1) (List.filter_sublist m.config))
      hnd
  have hks : m.getSortedPriorities.Nodup :=
    (List.perm_insertionSort _ _).nodup_iff.mpr (List.nodup_dedup _)
  have hcov : ∀ a ∈ enabledConfigs m.config,
      a.2.priority ∈ m.getSortedPriorities := by
    intro a ha
    exact (List.perm_insertionSort _ _).mem_iff.mpr
      (List.mem_dedup.mpr (List.mem_map_of_mem _ ha))
  have hjoinperm0 := join_filter_perm (fun nc : String × Config => nc.2.priority)
    m.getSortedPriorities (enabledConfigs m.config) hks hcov
  have hjoinperm : ((m.getSortedPriorities.map
      (fun p => m.groupByPriority p)).flatten).Perm (enabledConfigs m.config) :=
    hjoinperm0
  have hkeysperm : ((m.getSortedPriorities.map
      (fun p => (m.groupByPriority p).map (·.1))).flatten).Perm
      ((enabledConfigs m.config).map (·.1)) := by
    have hmapped := hjoinperm.map (·.1)
    rw [List.map_flatten, List.map_map] at hmapped
    exact hmapped
  cases hst : Manager.Start m w st0 with
  | none =>
    rw [hst] at hs
    simp at hs
  | some r =>
    obtain ⟨e1, stOut⟩ := r
    rw [hst] at hs
    simp only [Option.map_some'] at hs
    injection hs with hs1
    have he1 : e1 = none := hs1
    subst he1
    have hjnd : ((m.getSortedPriorities.map
        (fun p => (m.groupByPriority p).map (·.1))).flatten).Nodup :=
      hkeysperm.nodup_iff.mpr hEnd
    have hkeys := startPriorities_success_keys m w m.getSortedPriorities st0
      stOut hst (by simpa [st0] using hjnd)
    have hlrperm : (stOut.running.map (·.1)).Perm
        ((enabledConfigs m.config).map (·.1)) := by
      rw [hkeys]
      simpa [st0] using hkeysperm
    have hsorted : Manager.ListRunning stOut = sortedEnabledNames m.config :=
      sortedNames_eq_of_perm _ _ hlrperm
    constructor
    · simp only [Option.map_some']
      rw [hsorted]
    · intro n c hmem hdis names hnames
      simp only [Option.map_some'] at hnames
      injection hnames with hnames
      rw [← hnames, hsorted]
      intro hn
      have hn2 : n ∈ (enabledConfigs m.config).map (·.1) :=
        (List.perm_insertionSort _ _).mem_iff.mp hn
      rcases List.mem_map.mp hn2 with ⟨q, hq, hqe⟩
      have hqcfg := List.mem_of_mem_filter hq
      have hqen := List.of_mem_filter hq
      have heqq : q = (n, c) :=
        eq_of_mem_of_nodup_keys hnd hqcfg hmem (by rw [hqe])
      rw [heqq] at hqen
      have hce : c.enabled = true := hqen
      rw [hdis] at hce
      cases hce

/-- C3 (witness for the amended theorem): enabled `a`, `b` and disabled
`z`. -/
theorem c3_witness :
    (Manager.Start mABz wOk st0).map (fun r => Manager.ListRunning r.2)
      = some (sortedEnabledNames mABz.config)
    ∧ "z" ∉ sortedEnabledNames mABz.config := by
  have h := c3_theorem mABz wOk (by decide) (by decide)
  refine ⟨h.1, ?_⟩
  exact h.2 "z" {} (by simp [mABz]) rfl (sortedEnabledNames mABz.config) h.1
